import Mathlib

/-!
Verification of the battery-dashboard data core: the column classifier and
preprocessor (`src/backend/data_processor.py`) and the tiered data cache
(`src/backend/cache_manager.py`), shallowly embedded in Lean 4.

Conventions of the embedding:
* Column names are `List Char` (Python strings viewed as character
  sequences); cache identifiers are Lean `String`s.
* Timestamps are rationals (`ℚ`): `datetime.now()` becomes an explicit
  `now` argument, `timedelta` subtraction becomes rational subtraction.
* Numeric cell values are rationals; a missing value (`NaN`/`None`) is
  `Option.none`.  A pandas column carries its dtype, modelled by the two
  constructors of `Col` (numeric column / object-of-strings column).
* File-system and pickle I/O are modelled as association lists inside
  `CacheState`; a disk blob that exists but fails to deserialize is
  `some none` in the disk map, an absent file is a missing key.
-/

/-! ### String utilities

`toLowerL` is Python `str.lower` (per-character, ASCII usage),
`containsSub pat s` is Python `pat in s` (contiguous-substring test),
`stripAvg` is Python `s.replace('_avg', '')` (left-to-right removal of
every non-overlapping occurrence).
-/

def toLowerL (s : List Char) : List Char := s.map Char.toLower

def containsSub (pat : List Char) : List Char → Bool
  | [] => pat.isEmpty
  | c :: rest => pat.isPrefixOf (c :: rest) || containsSub pat rest

def stripAvg : List Char → List Char
  | '_' :: 'a' :: 'v' :: 'g' :: rest => stripAvg rest
  | c :: rest => c :: stripAvg rest
  | [] => []

/-! ### Association-list dictionaries

Python `dict` operations used by the cache: key membership preserves
insertion order, assignment to a present key updates in place, assignment
to an absent key appends, `del` removes the key.
-/

def lookupKey {β : Type} : List (String × β) → String → Option β
  | [], _ => none
  | p :: rest, k => if k = p.1 then some p.2 else lookupKey rest k

def setKey {β : Type} (l : List (String × β)) (k : String) (v : β) :
    List (String × β) :=
  if l.any (fun p => p.1 = k) then
    l.map (fun p => if p.1 = k then (k, v) else p)
  else l ++ [(k, v)]

def removeKey {β : Type} (l : List (String × β)) (k : String) :
    List (String × β) :=
  l.filter (fun p => ¬ (p.1 = k))

/-! ### Column classifier

`BatteryDataProcessor.identify_column_types`: for each column name the
lowercased form (`col_lower`) and the lowercased form with every
occurrence of `_avg` removed (`col_base`) are computed, then an
if/elif chain assigns the name to the first matching bucket.  There is
no `else` branch: a name matching no rule is appended to no bucket.
-/

inductive Cat where
  | temp_stats | soc_soh | cell_voltages | temp_cols | thermocouple
  | cell_balancing | time | current | power
deriving DecidableEq, Repr

/-- The if/elif chain of `identify_column_types`, as a function of the
lowercased name `l` (`col_lower`) and its `_avg`-stripped form `b`
(`col_base`).  `none` is the fall-through (no bucket). -/
def classifyCore (l b : List Char) : Option Cat :=
  if containsSub "battery_temperature_m".data b ||
     containsSub "effective_battery".data b then some .temp_stats
  else if containsSub "pack_s".data b then some .soc_soh
  else if containsSub "cell_voltage_cell".data b then some .cell_voltages
  else if containsSub "bms00_pack_".data b then some .temp_cols
  else if (containsSub "lh-".data l && containsSub "t".data l) ||
          (containsSub "rh-".data l && containsSub "t".data l) then
    some .thermocouple
  else if containsSub "_balancing_status_".data b then some .cell_balancing
  else if l = "time".data ∨ l = "timestamp".data ∨ l = "index".data ∨
          containsSub "time".data l then some .time
  else if containsSub "current".data l || containsSub "amp".data l ||
          containsSub "battery_current".data b then some .current
  else if containsSub "power".data l || containsSub "watt".data l ||
          containsSub "battery_power".data b then some .power
  else none

/-- Category assigned to one column name by the loop body of
`identify_column_types` (first matching rule, or `none`). -/
def classifyName (col : List Char) : Option Cat :=
  classifyCore (toLowerL col) (stripAvg (toLowerL col))

/-- The mapping returned by `identify_column_types`: one list of original
column names per bucket, in column order.  (The derived `temperature`
entry is `temperatureOf`.) -/
structure ColTypes where
  temp_stats : List (List Char)
  soc_soh : List (List Char)
  cell_voltages : List (List Char)
  temp_cols : List (List Char)
  thermocouple : List (List Char)
  cell_balancing : List (List Char)
  time : List (List Char)
  current : List (List Char)
  power : List (List Char)
deriving DecidableEq, Repr

def emptyColTypes : ColTypes := ⟨[], [], [], [], [], [], [], [], []⟩

/-- Bucket of a given category inside a `ColTypes` record. -/
def catField (r : ColTypes) : Cat → List (List Char)
  | .temp_stats => r.temp_stats
  | .soc_soh => r.soc_soh
  | .cell_voltages => r.cell_voltages
  | .temp_cols => r.temp_cols
  | .thermocouple => r.thermocouple
  | .cell_balancing => r.cell_balancing
  | .time => r.time
  | .current => r.current
  | .power => r.power

/-- Prepend a classified column onto its bucket (the loop appends in
column order; building the tail first and consing keeps that order). -/
def consCol (c : List Char) (r : ColTypes) : ColTypes :=
  match classifyName c with
  | some .temp_stats => { r with temp_stats := c :: r.temp_stats }
  | some .soc_soh => { r with soc_soh := c :: r.soc_soh }
  | some .cell_voltages => { r with cell_voltages := c :: r.cell_voltages }
  | some .temp_cols => { r with temp_cols := c :: r.temp_cols }
  | some .thermocouple => { r with thermocouple := c :: r.thermocouple }
  | some .cell_balancing => { r with cell_balancing := c :: r.cell_balancing }
  | some .time => { r with time := c :: r.time }
  | some .current => { r with current := c :: r.current }
  | some .power => { r with power := c :: r.power }
  | none => r

def identify_column_types : List (List Char) → ColTypes
  | [] => emptyColTypes
  | c :: rest => consCol c (identify_column_types rest)

/-- Derived aggregate written into `column_types['temperature']`:
`temp_stats + temp_cols + thermocouple`. -/
def temperatureOf (r : ColTypes) : List (List Char) :=
  r.temp_stats ++ r.temp_cols ++ r.thermocouple

/-! ### Tables

A pandas `DataFrame` is modelled columnar: a row count, an optional
numeric index (promoted `Time` column; `none` is the default range
index), and ordered named columns.  A column carries its dtype:
`Col.num` is a numeric dtype (cells rational or missing), `Col.str` an
object dtype of strings (cells string or missing).
-/

inductive Col where
  | num (vals : List (Option ℚ))
  | str (vals : List (Option (List Char)))
deriving DecidableEq, Repr

structure DFrame where
  nrows : Nat
  idx : Option (List (Option ℚ))
  cols : List ((List Char) × Col)
deriving DecidableEq, Repr

def Col.length : Col → Nat
  | .num vs => vs.length
  | .str vs => vs.length

def Col.isNum : Col → Bool
  | .num _ => true
  | .str _ => false

/-- Column has at least one non-missing cell (negation of pandas
"all values NA"). -/
def Col.hasValue : Col → Bool
  | .num vs => vs.any (fun v => v.isSome)
  | .str vs => vs.any (fun v => v.isSome)

def Col.countNone : Col → Nat
  | .num vs => vs.countP (fun v => v.isNone)
  | .str vs => vs.countP (fun v => v.isNone)

/-- All columns have the row count the frame declares. -/
def DFrame.WF (df : DFrame) : Prop :=
  ∀ p ∈ df.cols, Col.length p.2 = df.nrows

instance (df : DFrame) : Decidable df.WF := by
  unfold DFrame.WF; infer_instance

def DFrame.colNames (df : DFrame) : List (List Char) :=
  df.cols.map (fun p => p.1)

/-- pandas `df.empty`: true when either axis has length zero. -/
def DFrame.isEmpty (df : DFrame) : Bool :=
  df.nrows = 0 || df.cols.isEmpty

/-! ### Numeric coercion (`pd.to_numeric(..., errors='coerce')`)

For a numeric column coercion is the identity; for an object column
each cell is parsed as a decimal numeral (optional sign, optional
fractional part) and unparseable cells become missing.  (Exponent
notation is not modelled; no claim under verification exercises it.)
-/

def digitsToNat (ds : List Char) : Nat :=
  ds.foldl (fun n c => n * 10 + (c.toNat - '0'.toNat)) 0

def parseNum (s : List Char) : Option ℚ :=
  let signed : ℚ × List Char :=
    match s with
    | '-' :: r => (-1, r)
    | _ => (1, s)
  let ip := signed.2.takeWhile Char.isDigit
  let rest := signed.2.dropWhile Char.isDigit
  if ip.isEmpty then none
  else
    match rest with
    | [] => some (signed.1 * digitsToNat ip)
    | '.' :: fp =>
      if fp.isEmpty || !(fp.all Char.isDigit) then none
      else some (signed.1 * ((digitsToNat ip : ℚ) +
        (digitsToNat fp : ℚ) / (10 : ℚ) ^ fp.length))
    | _ => none

def toNumericCol : Col → List (Option ℚ)
  | .num vs => vs
  | .str vs => vs.map (fun so => so.bind parseNum)

/-! ### Missing-value filling (`ffill().bfill()`) -/

def ffillFrom (carry : Option ℚ) : List (Option ℚ) → List (Option ℚ)
  | [] => []
  | v :: rest =>
    match v with
    | some x => some x :: ffillFrom (some x) rest
    | none => carry :: ffillFrom carry rest

def ffillVals (vs : List (Option ℚ)) : List (Option ℚ) := ffillFrom none vs

def bfillVals (vs : List (Option ℚ)) : List (Option ℚ) :=
  (ffillVals vs.reverse).reverse

/-- Forward fill then backward fill of one column.  Only numeric columns
remain when the fill step runs (non-numeric columns were filtered out),
so the object case is the identity. -/
def Col.fill : Col → Col
  | .num vs => .num (bfillVals (ffillVals vs))
  | .str vs => .str vs

/-! ### `BatteryDataProcessor.preprocess_dataframe` -/

/-- First column value stored under a name (pandas single-label column
selection). -/
def findCol (cols : List ((List Char) × Col)) (name : List Char) :
    Option Col :=
  match cols with
  | [] => none
  | p :: rest => if p.1 = name then some p.2 else findCol rest name

/-- Steps of `preprocess_dataframe`: rename the first `time`-classified
column to `Time`, coerce it to numeric and promote it to the index;
keep only numeric columns; drop columns whose cells are all missing;
forward- then backward-fill the rest. -/
def preprocess_dataframe (df : DFrame) : DFrame :=
  let timeCols := (identify_column_types df.colNames).time
  let df1 : DFrame :=
    match timeCols with
    | [] => df
    | t :: _ =>
      let cols' := df.cols.map
        (fun p => if p.1 = t then ("Time".data, p.2) else p)
      match findCol cols' "Time".data with
      | some c =>
        { nrows := df.nrows, idx := some (toNumericCol c),
          cols := cols'.filter (fun p => ¬ (p.1 = "Time".data)) }
      | none => { df with cols := cols' }
  let df2 : DFrame :=
    { df1 with cols := df1.cols.filter (fun p => Col.isNum p.2) }
  let df3 : DFrame :=
    { df2 with cols := df2.cols.filter (fun p => Col.hasValue p.2) }
  { df3 with cols := df3.cols.map (fun p => (p.1, Col.fill p.2)) }

/-! ### `BatteryDataProcessor.calculate_statistics`

Numeric aggregates follow pandas skip-NA semantics: the aggregate of a
column with no non-missing cell is missing (`None` after the
`float(val) if pd.notna(val) else None` guard).  `std` uses sample
variance (`ddof=1`), so it is additionally missing when fewer than two
cells are present; the stored rational is the variance (the square of
the reported standard deviation — square roots leave `ℚ`; presence and
absence, which is what the claims concern, coincide exactly).
The dtype-label and memory-usage fields, and the datetime branch of the
time-range block, describe runtime representation and are not modelled.
-/

def colMean (vs : List (Option ℚ)) : Option ℚ :=
  let xs := vs.filterMap id
  if xs.isEmpty then none else some (xs.sum / xs.length)

def colVar (vs : List (Option ℚ)) : Option ℚ :=
  let xs := vs.filterMap id
  if xs.length < 2 then none
  else
    let m := xs.sum / xs.length
    some ((xs.map (fun x => (x - m) ^ 2)).sum / ((xs.length : ℚ) - 1))

def colMin (vs : List (Option ℚ)) : Option ℚ :=
  match vs.filterMap id with
  | [] => none
  | x :: xs => some (xs.foldl min x)

def colMax (vs : List (Option ℚ)) : Option ℚ :=
  match vs.filterMap id with
  | [] => none
  | x :: xs => some (xs.foldl max x)

structure NumericStats where
  mean : List ((List Char) × Option ℚ)
  std : List ((List Char) × Option ℚ)
  minv : List ((List Char) × Option ℚ)
  maxv : List ((List Char) × Option ℚ)
deriving DecidableEq, Repr

structure StatsRec where
  shape : Nat × Nat
  null_counts : List ((List Char) × Nat)
  numeric_stats : NumericStats
  time_range : Option (ℚ × ℚ × ℚ)
  duration_hours : ℚ
deriving DecidableEq, Repr

/-- Name-contains-`time` heuristic of the time-range block (independent
of the classifier; note it accepts `timestamp` but not `index`). -/
def statsTimeLike (name : List Char) : Bool :=
  toLowerL name = "time".data || toLowerL name = "timestamp".data ||
    containsSub "time".data (toLowerL name)

def calculate_statistics (df : DFrame) : StatsRec :=
  let numCols := df.cols.filter (fun p => Col.isNum p.2)
  let numVals : List ((List Char) × List (Option ℚ)) :=
    numCols.map (fun p => (p.1, toNumericCol p.2))
  let timeCols := df.cols.filter (fun p => statsTimeLike p.1)
  let tr : Option (ℚ × ℚ × ℚ) :=
    match timeCols with
    | [] => none
    | p :: _ =>
      match (toNumericCol p.2).filterMap id with
      | [] => none
      | x :: xs =>
        let mn := xs.foldl min x
        let mx := xs.foldl max x
        some (mn, mx, mx - mn)
  { shape := (df.nrows, df.cols.length)
    null_counts := df.cols.map (fun p => (p.1, Col.countNone p.2))
    numeric_stats :=
      { mean := numVals.map (fun p => (p.1, colMean p.2))
        std := numVals.map (fun p => (p.1, colVar p.2))
        minv := numVals.map (fun p => (p.1, colMin p.2))
        maxv := numVals.map (fun p => (p.1, colMax p.2)) }
    time_range := tr
    duration_hours :=
      match tr with
      | some (_, _, d) => d / 3600
      | none => 0 }

/-! ### Tiered cache (`DataCacheManager`)

State: the JSON cache index (identifier → entry summary), the bounded
in-memory tier (insertion-ordered `dict` of identifier → table), the
disk data tier and the metadata tier (keyed by cache key).  A disk
value `some none` models a blob that exists but whose `pickle.load`
raises (corrupt blob); a missing key models an absent file.

`_get_cache_key` is `hashlib.md5(file_id.encode()).hexdigest()`: an
opaque deterministic renaming of identifiers, represented here by the
identity function (no claim under verification depends on the shape of
the hash, only on its determinism).

I/O in `cache_data`/`_save_cache_index` is modelled as always
succeeding: the pure state has no failing writes, so `cache_data`
always returns `true` (the source returns `False` only when an OS or
serialization exception fires).
-/

structure IndexEntry where
  file_name : String
  last_updated : ℚ
  cache_key : String
  row_count : Nat
  column_count : Nat
deriving DecidableEq, Repr

structure MetaRec where
  file_name : String
  last_updated : ℚ
  columns : List (List Char)
  row_count : Nat
  column_count : Nat
deriving DecidableEq, Repr

structure CacheState where
  max_cache_age : ℚ
  cache_index : List (String × IndexEntry)
  memory_cache : List (String × DFrame)
  disk : List (String × Option DFrame)
  metadata : List (String × MetaRec)
deriving DecidableEq, Repr

def memory_cache_max_size : Nat := 5

def cacheKeyOf (file_id : String) : String := file_id

/-- `DataCacheManager._is_cache_valid`: an index record must exist and
its `last_updated` must be strictly less than `max_cache_age` ago.
(Every index record the manager writes carries a parseable
`last_updated`, so the missing/'unparseable timestamp' guards of the
source are vacuous in the model.) -/
def _is_cache_valid (s : CacheState) (file_id : String) (now : ℚ) : Bool :=
  match lookupKey s.cache_index file_id with
  | none => false
  | some e => decide (now - e.last_updated < s.max_cache_age)

/-- The `while len >= max_size: del next(iter(...))` loop of
`_add_to_memory_cache`: repeatedly drop the first-inserted entry until
the tier is below capacity. -/
def evictLoop (mem : List (String × DFrame)) : List (String × DFrame) :=
  if h : memory_cache_max_size ≤ mem.length then evictLoop mem.tail
  else mem
termination_by mem.length
decreasing_by
  simp only [List.length_tail]
  unfold memory_cache_max_size at h
  omega

def _add_to_memory_cache (mem : List (String × DFrame)) (file_id : String)
    (df : DFrame) : List (String × DFrame) :=
  setKey (evictLoop mem) file_id df

/-- `DataCacheManager.get_cached_data`: memory tier first (no validity
check), then the index-validity gate, then the disk blob; a missing or
corrupt blob is caught and reported as a miss.  Returns the result and
the possibly-updated state (a disk hit populates the memory tier). -/
def get_cached_data (s : CacheState) (file_id : String) (now : ℚ) :
    Option DFrame × CacheState :=
  match lookupKey s.memory_cache file_id with
  | some df => (some df, s)
  | none =>
    if _is_cache_valid s file_id now then
      match lookupKey s.disk (cacheKeyOf file_id) with
      | some (some df) =>
        (some df,
         { s with memory_cache := _add_to_memory_cache s.memory_cache file_id df })
      | some none => (none, s)
      | none => (none, s)
    else (none, s)

/-- `DataCacheManager.cache_data`: write the pickle blob, write the
metadata blob, update the index with a fresh `last_updated`, populate
the memory tier, return success. -/
def cache_data (s : CacheState) (file_id : String) (file_name : String)
    (df : DFrame) (now : ℚ) : Bool × CacheState :=
  let key := cacheKeyOf file_id
  (true,
   { s with
     disk := setKey s.disk key (some df)
     metadata := setKey s.metadata key
       ⟨file_name, now, df.colNames, df.nrows, df.cols.length⟩
     cache_index := setKey s.cache_index file_id
       ⟨file_name, now, key, df.nrows, df.cols.length⟩
     memory_cache := _add_to_memory_cache s.memory_cache file_id df })

/-- `DataCacheManager.remove_from_cache`: clear the memory tier entry,
then (when indexed) delete both blobs and the index record. -/
def remove_from_cache (s : CacheState) (file_id : String) : CacheState :=
  let mem' := s.memory_cache.filter (fun p => ¬ (p.1 = file_id))
  match lookupKey s.cache_index file_id with
  | some e =>
    { s with
      memory_cache := mem'
      disk := removeKey s.disk e.cache_key
      metadata := removeKey s.metadata e.cache_key
      cache_index := removeKey s.cache_index file_id }
  | none => { s with memory_cache := mem' }

/-- `DataCacheManager.clear_expired_cache`: collect the identifiers that
fail the validity predicate, then remove each. -/
def clear_expired_cache (s : CacheState) (now : ℚ) : CacheState :=
  let expired := (s.cache_index.map (fun p => p.1)).filter
    (fun id => ¬ (_is_cache_valid s id now = true))
  expired.foldl (fun st id => remove_from_cache st id) s

/-- One candidate of `preload_popular_files`: identifier and display
name. -/
structure Candidate where
  id : String
  name : String
deriving DecidableEq, Repr

/-- Body of the `for file_info in file_list[:max_files]` loop of
`preload_popular_files`.  `fetch` is the composite collaborator step
(`drive_handler.download_file_to_memory` followed by
`process_csv_content`): `Except.error` models an exception raised
while fetching or parsing one candidate, which the source logs and
contains.  A well-formed non-empty frame is stored via `cache_data`
and counted on success. -/
def preloadGo (s : CacheState) (cands : List Candidate)
    (fetch : String → Except String DFrame) (now : ℚ) : Nat × CacheState :=
  match cands with
  | [] => (0, s)
  | c :: rest =>
    if _is_cache_valid s c.id now then preloadGo s rest fetch now
    else
      match fetch c.id with
      | .error _ => preloadGo s rest fetch now
      | .ok df =>
        if df.isEmpty then preloadGo s rest fetch now
        else
          let r := cache_data s c.id c.name df now
          let next := preloadGo r.2 rest fetch now
          (if r.1 then next.1 + 1 else next.1, next.2)

/-- `DataCacheManager.preload_popular_files`: iterate the first
`max_files` candidates, skipping already-valid ones; return the number
of successfully cached candidates together with the final state. -/
def preload_popular_files (s : CacheState) (file_list : List Candidate)
    (fetch : String → Except String DFrame) (max_files : Nat) (now : ℚ) :
    Nat × CacheState :=
  preloadGo s (file_list.take max_files) fetch now

/-! ### Dictionary lemmas -/

theorem lookupKey_eq_none {β : Type} (l : List (String × β)) (k : String)
    (h : ∀ p ∈ l, ¬ (p.1 = k)) : lookupKey l k = none := by
  induction l with
  | nil => rfl
  | cons p rest ih =>
    simp only [lookupKey]
    rw [if_neg, ih]
    · intro q hq; exact h q (List.mem_cons_of_mem _ hq)
    · intro hk; exact h p (List.mem_cons_self _ _) hk.symm

theorem lookupKey_none_forall {β : Type} (l : List (String × β)) (k : String)
    (h : lookupKey l k = none) : ∀ p ∈ l, ¬ (p.1 = k) := by
  induction l with
  | nil => intro p hp; cases hp
  | cons q rest ih =>
    intro p hp
    simp only [lookupKey] at h
    by_cases hq : k = q.1
    · rw [if_pos hq] at h; cases h
    · rw [if_neg hq] at h
      rcases List.mem_cons.mp hp with hp' | hp'
      · subst hp'; intro he; exact hq he.symm
      · exact ih h p hp'

theorem lookupKey_append {β : Type} (l₁ l₂ : List (String × β)) (k : String)
    (h : lookupKey l₁ k = none) :
    lookupKey (l₁ ++ l₂) k = lookupKey l₂ k := by
  induction l₁ with
  | nil => rfl
  | cons p rest ih =>
    simp only [lookupKey] at h ⊢
    by_cases hp : k = p.1
    · rw [if_pos hp] at h; cases h
    · rw [if_neg hp] at h ⊢; exact ih h

theorem lookupKey_setKey_self {β : Type} (l : List (String × β)) (k : String)
    (v : β) : lookupKey (setKey l k v) k = some v := by
  unfold setKey
  by_cases ha : l.any (fun p => p.1 = k) = true
  · rw [if_pos ha]
    induction l with
    | nil => simp at ha
    | cons p rest ih =>
      simp only [List.map_cons, lookupKey]
      by_cases hp : p.1 = k
      · rw [if_pos hp]; simp [lookupKey]
      · rw [if_neg hp]
        rw [if_neg (fun he => hp he.symm)]
        have ha' : rest.any (fun p => p.1 = k) = true := by
          simp only [List.any_cons, Bool.or_eq_true, decide_eq_true_eq] at ha
          rcases ha with h1 | h2
          · exact absurd h1 hp
          · exact h2
        exact ih ha'
  · rw [if_neg ha]
    rw [lookupKey_append]
    · simp [lookupKey]
    · apply lookupKey_eq_none
      intro p hp hk
      exact ha (List.any_eq_true.mpr ⟨p, hp, by simp [hk]⟩)

theorem lookupKey_append_left {β : Type} (l₁ l₂ : List (String × β))
    (k : String) (v : β) (h : lookupKey l₁ k = some v) :
    lookupKey (l₁ ++ l₂) k = some v := by
  induction l₁ with
  | nil => cases h
  | cons p rest ih =>
    simp only [lookupKey] at h ⊢
    by_cases hp : k = p.1
    · rw [if_pos hp] at h ⊢; exact h
    · rw [if_neg hp] at h ⊢; exact ih h

theorem lookupKey_map_update {β : Type} (l : List (String × β))
    (k k' : String) (v : β) (h : ¬ (k' = k)) :
    lookupKey (l.map (fun p => if p.1 = k then (k, v) else p)) k' =
      lookupKey l k' := by
  induction l with
  | nil => rfl
  | cons p rest ih =>
    by_cases hp : p.1 = k
    · simp only [List.map_cons, if_pos hp, lookupKey]
      rw [if_neg h, if_neg (show ¬ (k' = p.1) by rw [hp]; exact h), ih]
    · simp only [List.map_cons, if_neg hp, lookupKey]
      rw [ih]

theorem lookupKey_setKey_ne {β : Type} (l : List (String × β)) (k k' : String)
    (v : β) (h : ¬ (k' = k)) :
    lookupKey (setKey l k v) k' = lookupKey l k' := by
  unfold setKey
  by_cases ha : l.any (fun p => p.1 = k) = true
  · rw [if_pos ha]; exact lookupKey_map_update l k k' v h
  · rw [if_neg ha]
    cases hl : lookupKey l k' with
    | some w => exact lookupKey_append_left _ _ _ _ hl
    | none =>
      rw [lookupKey_append _ _ _ hl]
      simp [lookupKey, h]

theorem setKey_length {β : Type} (l : List (String × β)) (k : String)
    (v : β) : (setKey l k v).length ≤ l.length + 1 := by
  unfold setKey
  by_cases ha : l.any (fun p => p.1 = k) = true
  · rw [if_pos ha]; simp
  · rw [if_neg ha]; simp

theorem setKey_of_absent {β : Type} (l : List (String × β)) (k : String)
    (v : β) (h : lookupKey l k = none) : setKey l k v = l ++ [(k, v)] := by
  unfold setKey
  rw [if_neg]
  intro ha
  rcases List.any_eq_true.mp ha with ⟨p, hp, he⟩
  exact lookupKey_none_forall l k h p hp (by simpa using he)

theorem lookupKey_not_mem_keys {β : Type} (l : List (String × β)) (k : String)
    (h : k ∉ l.map (fun p => p.1)) : lookupKey l k = none := by
  apply lookupKey_eq_none
  intro p hp he
  exact h (he ▸ List.mem_map_of_mem _ hp)

/-! ### Eviction-loop lemmas -/

theorem evictLoop_eq (mem : List (String × DFrame)) :
    evictLoop mem =
      if memory_cache_max_size ≤ mem.length then evictLoop mem.tail
      else mem := by
  rw [evictLoop]
  split <;> rfl

theorem evictLoop_length (mem : List (String × DFrame)) :
    (evictLoop mem).length < memory_cache_max_size := by
  suffices H : ∀ n (l : List (String × DFrame)), l.length ≤ n →
      (evictLoop l).length < memory_cache_max_size from H mem.length mem le_rfl
  intro n
  induction n with
  | zero =>
    intro l hl
    rw [evictLoop_eq]
    have : l.length = 0 := Nat.le_zero.mp hl
    rw [if_neg (by rw [this]; decide)]
    rw [this]; decide
  | succ n ih =>
    intro l hl
    rw [evictLoop_eq]
    by_cases h5 : memory_cache_max_size ≤ l.length
    · rw [if_pos h5]
      exact ih l.tail (by simp only [List.length_tail]; omega)
    · rw [if_neg h5]; omega

theorem evictLoop_of_full (old : String × DFrame)
    (rest : List (String × DFrame)) (h : (old :: rest).length = 5) :
    evictLoop (old :: rest) = rest := by
  rw [evictLoop_eq, if_pos (by rw [h]; decide)]
  rw [evictLoop_eq, if_neg]
  · rfl
  · simp only [List.tail_cons]
    simp only [List.length_cons] at h
    unfold memory_cache_max_size
    omega

theorem add_to_memory_length (mem : List (String × DFrame)) (id : String)
    (df : DFrame) :
    (_add_to_memory_cache mem id df).length ≤ memory_cache_max_size := by
  unfold _add_to_memory_cache
  have h1 := setKey_length (evictLoop mem) id df
  have h2 := evictLoop_length mem
  omega

theorem lookupKey_add_to_memory_self (mem : List (String × DFrame))
    (id : String) (df : DFrame) :
    lookupKey (_add_to_memory_cache mem id df) id = some df :=
  lookupKey_setKey_self _ _ _

/-- C2: validity is exactly "an index record exists and strictly less
than `max_cache_age` has elapsed since its `last_updated`"; an entry
stamped `t0` is valid at `t0 + max_age − ε` and invalid at
`t0 + max_age + ε` for every `ε > 0`; and the predicate reads only the
index and the configured age, never the memory or disk tiers. -/
theorem is_cache_valid_spec :
    (∀ (s : CacheState) (id : String) (now : ℚ),
      _is_cache_valid s id now = true ↔
        ∃ e, lookupKey s.cache_index id = some e ∧
          now - e.last_updated < s.max_cache_age) ∧
    (∀ (s : CacheState) (id : String) (e : IndexEntry) (ε : ℚ),
      lookupKey s.cache_index id = some e → 0 < ε →
        _is_cache_valid s id (e.last_updated + s.max_cache_age - ε) = true ∧
        _is_cache_valid s id (e.last_updated + s.max_cache_age + ε) = false) ∧
    (∀ (s₁ s₂ : CacheState) (id : String) (now : ℚ),
      s₁.cache_index = s₂.cache_index → s₁.max_cache_age = s₂.max_cache_age →
        _is_cache_valid s₁ id now = _is_cache_valid s₂ id now) := by
  refine ⟨?_, ?_, ?_⟩
  · intro s id now
    unfold _is_cache_valid
    cases h : lookupKey s.cache_index id with
    | none => simp
    | some e => simp [decide_eq_true_eq]
  · intro s id e ε he hε
    unfold _is_cache_valid
    rw [he]
    constructor
    · simp only [decide_eq_true_eq]
      linarith
    · simp only [decide_eq_false_iff_not, not_lt]
      linarith
  · intro s₁ s₂ id now h1 h2
    unfold _is_cache_valid
    rw [h1, h2]

/-- C2 witness: a single entry stamped at time 0 with a 24-unit max age
is valid at 23 and invalid at 25. -/
theorem is_cache_valid_spec_witness :
    _is_cache_valid ⟨24, [("f", ⟨"F", 0, "f", 1, 1⟩)], [], [], []⟩ "f" 23 = true ∧
    _is_cache_valid ⟨24, [("f", ⟨"F", 0, "f", 1, 1⟩)], [], [], []⟩ "f" 25 = false := by
  have h := is_cache_valid_spec.2.1 ⟨24, [("f", ⟨"F", 0, "f", 1, 1⟩)], [], [], []⟩
    "f" ⟨"F", 0, "f", 1, 1⟩ 1 (by decide) (by norm_num)
  constructor
  · have := h.1; norm_num at this ⊢; exact this
  · have := h.2; norm_num at this ⊢; exact this

/-- C4: a `cache_data` call reports success, and an immediately
following `get_cached_data` for the same identifier — at any later
clock reading — is a hit returning exactly the table that was stored
(hence with its row count, column count and values), leaving the state
unchanged. -/
theorem cache_data_roundtrip (s : CacheState) (id name : String)
    (df : DFrame) (now nowGet : ℚ) :
    (cache_data s id name df now).1 = true ∧
    get_cached_data (cache_data s id name df now).2 id nowGet =
      (some df, (cache_data s id name df now).2) := by
  constructor
  · rfl
  · unfold get_cached_data cache_data
    simp only
    rw [lookupKey_add_to_memory_self]

/-- C3: with the memory tier at its capacity of five residents, reading
the oldest-inserted entry is a memory hit that leaves the state
untouched, and a subsequent insertion of a table for a fresh identifier
drops exactly the first-inserted resident and appends the new entry —
insertion-order eviction, insensitive to the preceding access. -/
theorem memory_eviction_insertion_order (s : CacheState)
    (old : String × DFrame) (rest : List (String × DFrame)) (id : String)
    (df : DFrame) (now : ℚ)
    (hmem : s.memory_cache = old :: rest)
    (hlen : s.memory_cache.length = 5)
    (hnew : lookupKey s.memory_cache id = none)
    (hnd : (s.memory_cache.map (fun p => p.1)).Nodup) :
    get_cached_data s old.1 now = (some old.2, s) ∧
    _add_to_memory_cache s.memory_cache id df = rest ++ [(id, df)] ∧
    lookupKey (_add_to_memory_cache s.memory_cache id df) old.1 = none := by
  have hrest_none : lookupKey rest id = none := by
    rw [hmem] at hnew
    apply lookupKey_eq_none
    intro p hp
    exact lookupKey_none_forall _ _ hnew p (List.mem_cons_of_mem _ hp)
  have hadd : _add_to_memory_cache s.memory_cache id df = rest ++ [(id, df)] := by
    unfold _add_to_memory_cache
    rw [hmem, evictLoop_of_full old rest (hmem ▸ hlen)]
    exact setKey_of_absent _ _ _ hrest_none
  refine ⟨?_, hadd, ?_⟩
  · unfold get_cached_data
    rw [hmem]
    simp [lookupKey]
  · rw [hadd]
    have hold_rest : lookupKey rest old.1 = none := by
      apply lookupKey_not_mem_keys
      rw [hmem] at hnd
      simp only [List.map_cons, List.nodup_cons] at hnd
      exact hnd.1
    rw [lookupKey_append _ _ _ hold_rest]
    have hne : ¬ (old.1 = id) := by
      intro he
      rw [hmem] at hnew
      simp [lookupKey, he] at hnew
    simp [lookupKey, hne]

/-- C3 witness: five residents a–e, a read of the oldest `a`, then an
insertion of fresh `f` evicts `a` and keeps b–e plus `f`. -/
theorem memory_eviction_insertion_order_witness :
    get_cached_data
        ⟨24, [], [("a", ⟨0, none, []⟩), ("b", ⟨0, none, []⟩), ("c", ⟨0, none, []⟩),
                  ("d", ⟨0, none, []⟩), ("e", ⟨0, none, []⟩)], [], []⟩ "a" 0 =
      (some ⟨0, none, []⟩,
        ⟨24, [], [("a", ⟨0, none, []⟩), ("b", ⟨0, none, []⟩), ("c", ⟨0, none, []⟩),
                  ("d", ⟨0, none, []⟩), ("e", ⟨0, none, []⟩)], [], []⟩) ∧
    _add_to_memory_cache
        [("a", ⟨0, none, []⟩), ("b", ⟨0, none, []⟩), ("c", ⟨0, none, []⟩),
         ("d", ⟨0, none, []⟩), ("e", ⟨0, none, []⟩)] "f" ⟨0, none, []⟩ =
      [("b", ⟨0, none, []⟩), ("c", ⟨0, none, []⟩), ("d", ⟨0, none, []⟩),
       ("e", ⟨0, none, []⟩), ("f", ⟨0, none, []⟩)] := by
  have h := memory_eviction_insertion_order
    ⟨24, [], [("a", ⟨0, none, []⟩), ("b", ⟨0, none, []⟩), ("c", ⟨0, none, []⟩),
              ("d", ⟨0, none, []⟩), ("e", ⟨0, none, []⟩)], [], []⟩
    ("a", ⟨0, none, []⟩)
    [("b", ⟨0, none, []⟩), ("c", ⟨0, none, []⟩), ("d", ⟨0, none, []⟩),
     ("e", ⟨0, none, []⟩)]
    "f" ⟨0, none, []⟩ 0 rfl rfl (by decide) (by decide)
  exact ⟨h.1, h.2.1⟩

theorem remove_from_cache_mem_le (s : CacheState) (id : String)
    (h : s.memory_cache.length ≤ memory_cache_max_size) :
    (remove_from_cache s id).memory_cache.length ≤ memory_cache_max_size := by
  unfold remove_from_cache
  cases lookupKey s.cache_index id with
  | some e => exact le_trans (List.length_filter_le _ _) h
  | none => exact le_trans (List.length_filter_le _ _) h

theorem foldl_remove_mem_le (ids : List String) (s : CacheState)
    (h : s.memory_cache.length ≤ memory_cache_max_size) :
    ((ids.foldl (fun st id => remove_from_cache st id) s)).memory_cache.length ≤
      memory_cache_max_size := by
  induction ids generalizing s with
  | nil => exact h
  | cons i rest ih =>
    exact ih (remove_from_cache s i) (remove_from_cache_mem_le s i h)

/-- C10: every cache operation keeps the memory tier within its
capacity of five; and when the tier is full, insertion runs the
eviction loop before the assignment, so the first-inserted resident is
dropped even when the inserted identifier is already resident — in
particular re-inserting the oldest resident itself first evicts it and
then re-appends it at the young end. -/
theorem memory_capacity_invariant :
    (∀ (mem : List (String × DFrame)) (id : String) (df : DFrame),
      (_add_to_memory_cache mem id df).length ≤ memory_cache_max_size) ∧
    (∀ (s : CacheState) (id name : String) (df : DFrame) (now : ℚ),
      ((cache_data s id name df now).2).memory_cache.length ≤
        memory_cache_max_size) ∧
    (∀ (s : CacheState) (id : String) (now : ℚ),
      s.memory_cache.length ≤ memory_cache_max_size →
      ((get_cached_data s id now).2).memory_cache.length ≤
        memory_cache_max_size) ∧
    (∀ (s : CacheState) (id : String),
      s.memory_cache.length ≤ memory_cache_max_size →
      (remove_from_cache s id).memory_cache.length ≤ memory_cache_max_size) ∧
    (∀ (s : CacheState) (now : ℚ),
      s.memory_cache.length ≤ memory_cache_max_size →
      (clear_expired_cache s now).memory_cache.length ≤
        memory_cache_max_size) ∧
    (∀ (mem : List (String × DFrame)) (old : String × DFrame)
        (rest : List (String × DFrame)) (id : String) (df : DFrame),
      mem = old :: rest → mem.length = 5 →
      _add_to_memory_cache mem id df = setKey rest id df) ∧
    (∀ (mem : List (String × DFrame)) (old : String × DFrame)
        (rest : List (String × DFrame)) (df : DFrame),
      mem = old :: rest → mem.length = 5 → lookupKey rest old.1 = none →
      _add_to_memory_cache mem old.1 df = rest ++ [(old.1, df)]) := by
  have hfull : ∀ (mem : List (String × DFrame)) (old : String × DFrame)
      (rest : List (String × DFrame)) (id : String) (df : DFrame),
      mem = old :: rest → mem.length = 5 →
      _add_to_memory_cache mem id df = setKey rest id df := by
    intro mem old rest id df hm hl
    unfold _add_to_memory_cache
    rw [hm, evictLoop_of_full old rest (hm ▸ hl)]
  refine ⟨fun mem id df => add_to_memory_length mem id df, ?_, ?_, ?_, ?_,
    hfull, ?_⟩
  · intro s id name df now
    unfold cache_data
    exact add_to_memory_length _ _ _
  · intro s id now h
    unfold get_cached_data
    cases hm : lookupKey s.memory_cache id with
    | some df => exact h
    | none =>
      by_cases hv : _is_cache_valid s id now = true
      · rw [if_pos hv]
        cases hd : lookupKey s.disk (cacheKeyOf id) with
        | none => exact h
        | some ob =>
          cases ob with
          | none => exact h
          | some df => exact add_to_memory_length _ _ _
      · rw [if_neg hv]; exact h
  · exact fun s id h => remove_from_cache_mem_le s id h
  · intro s now h
    unfold clear_expired_cache
    exact foldl_remove_mem_le _ s h
  · intro mem old rest df hm hl hrest
    rw [hfull mem old rest old.1 df hm hl]
    exact setKey_of_absent _ _ _ hrest

/-- C10 witness: a full tier a–e re-inserting resident `a` first evicts
`a` (the oldest insert) and re-appends it. -/
theorem memory_capacity_invariant_witness :
    _add_to_memory_cache
        [("a", ⟨0, none, []⟩), ("b", ⟨0, none, []⟩), ("c", ⟨0, none, []⟩),
         ("d", ⟨0, none, []⟩), ("e", ⟨0, none, []⟩)] "a" ⟨0, none, []⟩ =
      [("b", ⟨0, none, []⟩), ("c", ⟨0, none, []⟩), ("d", ⟨0, none, []⟩),
       ("e", ⟨0, none, []⟩), ("a", ⟨0, none, []⟩)] :=
  memory_capacity_invariant.2.2.2.2.2.2
    [("a", ⟨0, none, []⟩), ("b", ⟨0, none, []⟩), ("c", ⟨0, none, []⟩),
     ("d", ⟨0, none, []⟩), ("e", ⟨0, none, []⟩)]
    ("a", ⟨0, none, []⟩)
    [("b", ⟨0, none, []⟩), ("c", ⟨0, none, []⟩), ("d", ⟨0, none, []⟩),
     ("e", ⟨0, none, []⟩)]
    ⟨0, none, []⟩ rfl rfl (by decide)

/-- C6: when the identifier is not memory-resident (the tier consulted
before any disk read) and its index record is valid, a missing disk
blob or a blob whose deserialization fails yields a miss — `none`, the
state unchanged, no exception (the model is total). -/
theorem dangling_or_corrupt_blob_is_miss (s : CacheState) (id : String)
    (now : ℚ)
    (hmem : lookupKey s.memory_cache id = none)
    (hval : _is_cache_valid s id now = true)
    (hdisk : lookupKey s.disk (cacheKeyOf id) = none ∨
             lookupKey s.disk (cacheKeyOf id) = some none) :
    get_cached_data s id now = (none, s) := by
  unfold get_cached_data
  rw [hmem]
  simp only [if_pos hval]
  rcases hdisk with hd | hd <;> rw [hd]

/-- C6 witness: identifier `f` validly indexed at time 0, absent from
memory, disk blob corrupt — `get` at time 1 misses. -/
theorem dangling_or_corrupt_blob_is_miss_witness :
    get_cached_data ⟨24, [("f", ⟨"F", 0, "f", 1, 1⟩)], [], [("f", none)], []⟩
        "f" 1 =
      (none, ⟨24, [("f", ⟨"F", 0, "f", 1, 1⟩)], [], [("f", none)], []⟩) :=
  dangling_or_corrupt_blob_is_miss
    ⟨24, [("f", ⟨"F", 0, "f", 1, 1⟩)], [], [("f", none)], []⟩ "f" 1
    (by decide) (by simp [_is_cache_valid, lookupKey]) (Or.inr (by decide))

/-! ### Preload-loop step lemmas -/

theorem is_cache_valid_after_cache_data_ne (s : CacheState)
    (id name : String) (df : DFrame) (now : ℚ) (c : String) (nowq : ℚ)
    (h : ¬ (c = id)) :
    _is_cache_valid (cache_data s id name df now).2 c nowq =
      _is_cache_valid s c nowq := by
  unfold _is_cache_valid cache_data
  simp only
  rw [lookupKey_setKey_ne _ _ _ _ h]

theorem preloadGo_skip (s : CacheState) (c : Candidate) (rest : List Candidate)
    (f : String → Except String DFrame) (now : ℚ)
    (h : _is_cache_valid s c.id now = true) :
    preloadGo s (c :: rest) f now = preloadGo s rest f now := by
  simp only [preloadGo, h, if_true]

theorem preloadGo_error (s : CacheState) (c : Candidate)
    (rest : List Candidate) (f : String → Except String DFrame) (now : ℚ)
    (msg : String) (h : _is_cache_valid s c.id now = false)
    (hf : f c.id = .error msg) :
    preloadGo s (c :: rest) f now = preloadGo s rest f now := by
  simp only [preloadGo, h, Bool.false_eq_true, if_false, hf]

theorem preloadGo_store (s : CacheState) (c : Candidate)
    (rest : List Candidate) (f : String → Except String DFrame) (now : ℚ)
    (df : DFrame) (h : _is_cache_valid s c.id now = false)
    (hf : f c.id = .ok df) (hne : df.isEmpty = false) :
    preloadGo s (c :: rest) f now =
      ((preloadGo (cache_data s c.id c.name df now).2 rest f now).1 + 1,
       (preloadGo (cache_data s c.id c.name df now).2 rest f now).2) := by
  simp only [preloadGo, h, Bool.false_eq_true, if_false, hf, hne]
  rfl

/-- C5: the preload scheduler looks only at the first `limit`
candidates, in order; an already-valid candidate is skipped without
touching the state; an exception raised while fetching or parsing one
candidate is contained (the loop moves to the next candidate, no
exception escapes — the model is a total function); and with three
not-yet-cached candidates of which exactly the second raises during
fetch, the returned success count is 2. -/
theorem preload_partial_failure :
    (∀ (s : CacheState) (fl : List Candidate)
        (f : String → Except String DFrame) (lim : Nat) (now : ℚ),
      preload_popular_files s fl f lim now =
        preloadGo s (fl.take lim) f now) ∧
    (∀ (s : CacheState) (c : Candidate) (rest : List Candidate)
        (f : String → Except String DFrame) (now : ℚ),
      _is_cache_valid s c.id now = true →
        preloadGo s (c :: rest) f now = preloadGo s rest f now) ∧
    (∀ (s : CacheState) (c : Candidate) (rest : List Candidate)
        (f : String → Except String DFrame) (now : ℚ) (msg : String),
      _is_cache_valid s c.id now = false → f c.id = .error msg →
        preloadGo s (c :: rest) f now = preloadGo s rest f now) ∧
    (∀ (s : CacheState) (c1 c2 c3 : Candidate) (df1 df3 : DFrame)
        (f : String → Except String DFrame) (now : ℚ) (msg : String),
      ¬ (c2.id = c1.id) → ¬ (c3.id = c1.id) →
      _is_cache_valid s c1.id now = false →
      _is_cache_valid s c2.id now = false →
      _is_cache_valid s c3.id now = false →
      f c1.id = .ok df1 → df1.isEmpty = false →
      f c2.id = .error msg →
      f c3.id = .ok df3 → df3.isEmpty = false →
      (preload_popular_files s [c1, c2, c3] f 3 now).1 = 2) := by
  refine ⟨fun _ _ _ _ _ => rfl, preloadGo_skip, preloadGo_error, ?_⟩
  intro s c1 c2 c3 df1 df3 f now msg h21 h31 hv1 hv2 hv3 hf1 hne1 hf2 hf3 hne3
  have hv2' : _is_cache_valid (cache_data s c1.id c1.name df1 now).2 c2.id
      now = false := by
    rw [is_cache_valid_after_cache_data_ne _ _ _ _ _ _ _ h21]; exact hv2
  have hv3' : _is_cache_valid (cache_data s c1.id c1.name df1 now).2 c3.id
      now = false := by
    rw [is_cache_valid_after_cache_data_ne _ _ _ _ _ _ _ h31]; exact hv3
  show (preloadGo s [c1, c2, c3] f now).1 = 2
  rw [preloadGo_store s c1 [c2, c3] f now df1 hv1 hf1 hne1]
  rw [preloadGo_error _ c2 [c3] f now msg hv2' hf2]
  rw [preloadGo_store _ c3 [] f now df3 hv3' hf3 hne3]
  simp [preloadGo]

/-- C5 witness: candidates a, b, c over an empty cache; fetching b
raises; preload returns 2. -/
theorem preload_partial_failure_witness :
    (preload_popular_files ⟨24, [], [], [], []⟩
        [⟨"a", "A"⟩, ⟨"b", "B"⟩, ⟨"c", "C"⟩]
        (fun id => if id = "b" then .error "boom"
                   else .ok ⟨1, none, [("v".data, Col.num [some 1])]⟩)
        3 0).1 = 2 :=
  preload_partial_failure.2.2.2 ⟨24, [], [], [], []⟩
    ⟨"a", "A"⟩ ⟨"b", "B"⟩ ⟨"c", "C"⟩
    ⟨1, none, [("v".data, Col.num [some 1])]⟩
    ⟨1, none, [("v".data, Col.num [some 1])]⟩
    (fun id => if id = "b" then .error "boom"
               else .ok ⟨1, none, [("v".data, Col.num [some 1])]⟩)
    0 "boom" (by decide) (by decide) rfl rfl rfl rfl rfl rfl rfl rfl

/-! ### Classifier bucket-membership lemmas -/

theorem catField_consCol (m : List Char) (r : ColTypes) (c : Cat) :
    catField (consCol m r) c =
      if classifyName m = some c then m :: catField r c else catField r c := by
  unfold consCol
  cases hm : classifyName m with
  | none => simp [catField]
  | some cat => cases cat <;> cases c <;> simp [catField]

theorem mem_catField_identify (names : List (List Char)) (n : List Char)
    (c : Cat) :
    n ∈ catField (identify_column_types names) c ↔
      n ∈ names ∧ classifyName n = some c := by
  induction names with
  | nil =>
    cases c <;> simp [identify_column_types, emptyColTypes, catField]
  | cons m rest ih =>
    show n ∈ catField (consCol m (identify_column_types rest)) c ↔ _
    rw [catField_consCol]
    by_cases hm : classifyName m = some c
    · rw [if_pos hm]
      constructor
      · intro h
        rcases List.mem_cons.mp h with h1 | h1
        · subst h1; exact ⟨List.mem_cons_self _ _, hm⟩
        · rcases ih.mp h1 with ⟨h2, h3⟩
          exact ⟨List.mem_cons_of_mem _ h2, h3⟩
      · rintro ⟨h1, h2⟩
        rcases List.mem_cons.mp h1 with h3 | h3
        · subst h3; exact List.mem_cons_self _ _
        · exact List.mem_cons_of_mem _ (ih.mpr ⟨h3, h2⟩)
    · rw [if_neg hm]
      rw [ih]
      constructor
      · rintro ⟨h1, h2⟩
        exact ⟨List.mem_cons_of_mem _ h1, h2⟩
      · rintro ⟨h1, h2⟩
        rcases List.mem_cons.mp h1 with h3 | h3
        · exact absurd (h3 ▸ h2) hm
        · exact ⟨h3, h2⟩

/-- C1 counterexample: for the input name list `["q"]` the returned
mapping of `identify_column_types` is the empty mapping — the name `q`
matches none of the nine rules and lands in no bucket at all.  The
mapping has no `other` entry (the `ColTypes` record enumerates every
key the function creates), so the union of the base buckets is empty
and differs from the input names, refuting the claimed partition. -/
theorem classify_no_catchall_counterexample :
    identify_column_types ["q".data] = emptyColTypes := by decide

/-- C1 (amended): the base buckets are pairwise disjoint, and a name
appears in some bucket exactly when it is an input name matched by one
of the nine rules; a name matching no rule appears in no bucket — the
returned mapping has no `other` catch-all, so the union of the base
buckets is the matched subset of the input names, not all of them. -/
theorem classify_partition_amended (names : List (List Char))
    (n : List Char) :
    ((∃ c, n ∈ catField (identify_column_types names) c) ↔
      n ∈ names ∧ (classifyName n).isSome = true) ∧
    (∀ c cq, n ∈ catField (identify_column_types names) c →
      n ∈ catField (identify_column_types names) cq → c = cq) := by
  constructor
  · constructor
    · rintro ⟨c, hc⟩
      rcases (mem_catField_identify names n c).mp hc with ⟨h1, h2⟩
      exact ⟨h1, by rw [h2]; rfl⟩
    · rintro ⟨h1, h2⟩
      rcases Option.isSome_iff_exists.mp h2 with ⟨c, hc⟩
      exact ⟨c, (mem_catField_identify names n c).mpr ⟨h1, hc⟩⟩
  · intro c cq h hq
    have h1 := ((mem_catField_identify names n c).mp h).2
    have h2 := ((mem_catField_identify names n cq).mp hq).2
    exact Option.some.inj (h1 ▸ h2 ▸ rfl)

/-- C1 witness: `Timestamp` is an input name matched by a rule, so it
appears in a bucket. -/
theorem classify_partition_amended_witness :
    ∃ c, "Timestamp".data ∈
      catField (identify_column_types ["Timestamp".data]) c :=
  (classify_partition_amended ["Timestamp".data] "Timestamp".data).1.mpr
    ⟨by decide, by decide⟩

/-! ### Statistics lemmas (C9) -/

theorem filterMap_id_eq_nil (vs : List (Option ℚ))
    (h : vs.all (fun v => v.isNone) = true) : vs.filterMap id = [] := by
  induction vs with
  | nil => rfl
  | cons v rest ih =>
    simp only [List.all_cons, Bool.and_eq_true] at h
    have hv : v = none := Option.isNone_iff_eq_none.mp h.1
    subst hv
    simp only [List.filterMap_cons_none, id]
    exact ih h.2

theorem colMean_none (vs : List (Option ℚ))
    (h : vs.all (fun v => v.isNone) = true) : colMean vs = none := by
  unfold colMean
  rw [filterMap_id_eq_nil vs h]
  rfl

theorem colVar_none (vs : List (Option ℚ))
    (h : vs.all (fun v => v.isNone) = true) : colVar vs = none := by
  unfold colVar
  rw [filterMap_id_eq_nil vs h]
  rfl

theorem colMin_none (vs : List (Option ℚ))
    (h : vs.all (fun v => v.isNone) = true) : colMin vs = none := by
  unfold colMin
  rw [filterMap_id_eq_nil vs h]

theorem colMax_none (vs : List (Option ℚ))
    (h : vs.all (fun v => v.isNone) = true) : colMax vs = none := by
  unfold colMax
  rw [filterMap_id_eq_nil vs h]

/-- C9: `calculate_statistics` reports every numeric aggregate of an
all-missing numeric column as `None` (never a NaN value — the model's
aggregates are `Option`al and `none` is precisely the
`pd.notna` guard failing); and on a zero-row table it returns shape
`(0, k)` for the `k` columns with every numeric aggregate `None`,
raising nothing (the model is a total function). -/
theorem calculate_statistics_missing (df : DFrame) :
    (∀ (name : List Char) (vals : List (Option ℚ)),
      (name, Col.num vals) ∈ df.cols →
      vals.all (fun v => v.isNone) = true →
      ((name, (none : Option ℚ)) ∈
          (calculate_statistics df).numeric_stats.mean ∧
        (name, (none : Option ℚ)) ∈
          (calculate_statistics df).numeric_stats.std ∧
        (name, (none : Option ℚ)) ∈
          (calculate_statistics df).numeric_stats.minv ∧
        (name, (none : Option ℚ)) ∈
          (calculate_statistics df).numeric_stats.maxv)) ∧
    (df.WF → df.nrows = 0 →
      ((calculate_statistics df).shape = (0, df.cols.length) ∧
        (∀ p ∈ (calculate_statistics df).numeric_stats.mean,
          p.2 = (none : Option ℚ)) ∧
        (∀ p ∈ (calculate_statistics df).numeric_stats.std,
          p.2 = (none : Option ℚ)) ∧
        (∀ p ∈ (calculate_statistics df).numeric_stats.minv,
          p.2 = (none : Option ℚ)) ∧
        (∀ p ∈ (calculate_statistics df).numeric_stats.maxv,
          p.2 = (none : Option ℚ)))) := by
  have hmem : ∀ (name : List Char) (vals : List (Option ℚ)),
      (name, Col.num vals) ∈ df.cols →
      ((name, vals) : (List Char) × List (Option ℚ)) ∈
        (df.cols.filter (fun p => Col.isNum p.2)).map
          (fun p => (p.1, toNumericCol p.2)) := by
    intro name vals h
    apply List.mem_map.mpr
    refine ⟨(name, Col.num vals), List.mem_filter.mpr ⟨h, rfl⟩, rfl⟩
  have hvals : ∀ q ∈ df.cols.filter (fun p => Col.isNum p.2), df.WF →
      df.nrows = 0 → toNumericCol q.2 = [] := by
    intro q hq hwf h0
    have hq' := List.mem_filter.mp hq
    have hlen := hwf q hq'.1
    cases hc : q.2 with
    | num vs =>
      rw [hc] at hlen
      simp only [Col.length, h0] at hlen
      rw [List.length_eq_zero] at hlen
      rw [hlen]
      rfl
    | str vs =>
      rw [hc] at hq'
      simp [Col.isNum] at hq'
  constructor
  · intro name vals h hall
    refine ⟨?_, ?_, ?_, ?_⟩ <;>
      · apply List.mem_map.mpr
        refine ⟨(name, vals), hmem name vals h, ?_⟩
        simp [colMean_none vals hall, colVar_none vals hall,
          colMin_none vals hall, colMax_none vals hall]
  · intro hwf h0
    refine ⟨by simp [calculate_statistics, h0], ?_, ?_, ?_, ?_⟩ <;>
      · intro p hp
        rcases List.mem_map.mp hp with ⟨qv, hqv, he⟩
        rcases List.mem_map.mp hqv with ⟨q, hq, he2⟩
        rw [← he2] at he
        rw [hvals q hq hwf h0] at he
        rw [← he]
        rfl

/-- C9 witness: a zero-row single-column frame has shape (0, 1) and a
`None` mean for its all-missing column. -/
theorem calculate_statistics_missing_witness :
    ("v".data, (none : Option ℚ)) ∈
      (calculate_statistics ⟨0, none, [("v".data, Col.num [])]⟩).numeric_stats.mean ∧
    (calculate_statistics ⟨0, none, [("v".data, Col.num [])]⟩).shape = (0, 1) := by
  have h := calculate_statistics_missing ⟨0, none, [("v".data, Col.num [])]⟩
  exact ⟨(h.1 "v".data [] (by decide) (by decide)).1, (h.2 (by decide) rfl).1⟩

/-! ### Preprocessing lemmas (C8) -/

theorem any_isSome_eq_false (vs : List (Option ℚ))
    (h : vs.all (fun v => v.isNone) = true) :
    vs.any (fun v => v.isSome) = false := by
  induction vs with
  | nil => rfl
  | cons v rest ih =>
    simp only [List.all_cons, Bool.and_eq_true] at h
    have hv : v = none := Option.isNone_iff_eq_none.mp h.1
    subst hv
    simp only [List.any_cons, Option.isSome_none, Bool.false_or]
    exact ih h.2

theorem mem_keys_nodup_unique {β : Type} (l : List ((List Char) × β))
    (k : List Char) (a b : β) (hnd : (l.map (fun p => p.1)).Nodup)
    (h1 : (k, a) ∈ l) (h2 : (k, b) ∈ l) : a = b := by
  induction l with
  | nil => cases h1
  | cons p rest ih =>
    simp only [List.map_cons, List.nodup_cons] at hnd
    rcases List.mem_cons.mp h1 with e1 | e1 <;>
      rcases List.mem_cons.mp h2 with e2 | e2
    · rw [← e1] at e2; exact (Prod.mk.injEq _ _ _ _ ▸ e2 : _ ∧ _).2.symm
    · exfalso
      apply hnd.1
      have hk : k ∈ rest.map (fun p => p.1) := List.mem_map_of_mem _ e2
      rw [← e1]
      exact hk
    · exfalso
      apply hnd.1
      have hk : k ∈ rest.map (fun p => p.1) := List.mem_map_of_mem _ e1
      rw [← e2]
      exact hk
    · exact ih hnd.2 e1 e2

/-- C8: preprocessing keeps every numeric non-time column that has at
least one present value, applying forward fill then backward fill to
its cells; a numeric column whose cells are all missing is dropped
before filling and appears nowhere in the output; and the fill policy
turns `[1, None, None, 4]` into `[1, 1, 1, 4]`. -/
theorem preprocess_fill (df : DFrame) (name : List Char)
    (vals : List (Option ℚ))
    (hmem : (name, Col.num vals) ∈ df.cols)
    (htime : ¬ (classifyName name = some Cat.time)) :
    (vals.any (fun v => v.isSome) = true →
      (name, Col.num (bfillVals (ffillVals vals))) ∈
        (preprocess_dataframe df).cols) ∧
    ((df.cols.map (fun p => p.1)).Nodup →
      vals.all (fun v => v.isNone) = true →
      ∀ c, ¬ ((name, c) ∈ (preprocess_dataframe df).cols)) ∧
    bfillVals (ffillVals [some 1, none, none, some 4]) =
      [some 1, some 1, some 1, some 4] := by
  have hTimeName : classifyName "Time".data = some Cat.time := by decide
  have hnameTime : ¬ (name = "Time".data) := fun he => htime (he ▸ hTimeName)
  refine ⟨?_, ?_, by rfl⟩
  · -- kept-and-filled part
    intro hany
    unfold preprocess_dataframe
    cases htc : (identify_column_types df.colNames).time with
    | nil =>
      simp only
      apply List.mem_map.mpr
      refine ⟨(name, Col.num vals), ?_, rfl⟩
      apply List.mem_filter.mpr
      refine ⟨List.mem_filter.mpr ⟨hmem, rfl⟩, ?_⟩
      simpa [Col.hasValue] using hany
    | cons t ts =>
      have ht_mem : t ∈ catField (identify_column_types df.colNames)
          Cat.time := by
        show t ∈ (identify_column_types df.colNames).time
        rw [htc]
        exact List.mem_cons_self _ _
      have ht_time : classifyName t = some Cat.time :=
        ((mem_catField_identify _ _ _).mp ht_mem).2
      have hname_ne_t : ¬ (name = t) := fun he => htime (he ▸ ht_time)
      have hmem' : (name, Col.num vals) ∈ df.cols.map
          (fun p => if p.1 = t then ("Time".data, p.2) else p) := by
        apply List.mem_map.mpr
        refine ⟨(name, Col.num vals), hmem, ?_⟩
        simp only [if_neg hname_ne_t]
      simp only
      cases hfc : findCol (df.cols.map
          (fun p => if p.1 = t then ("Time".data, p.2) else p))
          "Time".data with
      | some c =>
        simp only
        apply List.mem_map.mpr
        refine ⟨(name, Col.num vals), ?_, rfl⟩
        apply List.mem_filter.mpr
        refine ⟨List.mem_filter.mpr ⟨?_, rfl⟩, ?_⟩
        · apply List.mem_filter.mpr
          refine ⟨hmem', ?_⟩
          simp [hnameTime]
        · simpa [Col.hasValue] using hany
      | none =>
        simp only
        apply List.mem_map.mpr
        refine ⟨(name, Col.num vals), ?_, rfl⟩
        apply List.mem_filter.mpr
        refine ⟨List.mem_filter.mpr ⟨hmem', rfl⟩, ?_⟩
        simpa [Col.hasValue] using hany
  · -- all-missing column dropped
    intro hnd hall c hin
    have hnoval : Col.hasValue (Col.num vals) = false := by
      simpa [Col.hasValue] using any_isSome_eq_false vals hall
    unfold preprocess_dataframe at hin
    cases htc : (identify_column_types df.colNames).time with
    | nil =>
      rw [htc] at hin
      simp only at hin
      rcases List.mem_map.mp hin with ⟨q, hq, he⟩
      have hq1 := List.mem_filter.mp hq
      have hq2 := List.mem_filter.mp hq1.1
      have hqname : q.1 = name := congrArg Prod.fst he
      have : q.2 = Col.num vals := by
        apply mem_keys_nodup_unique df.cols name q.2 (Col.num vals) hnd
        · rw [← hqname]; exact hq2.1
        · exact hmem
      rw [this] at hq1
      rw [hnoval] at hq1
      cases hq1.2
    | cons t ts =>
      rw [htc] at hin
      simp only at hin
      have hmain : ∀ q, q ∈ df.cols.map
          (fun p => if p.1 = t then ("Time".data, p.2) else p) →
          q.1 = name → Col.hasValue q.2 = true → False := by
        intro q hq hqname hqval
        rcases List.mem_map.mp hq with ⟨p0, hp0, hf⟩
        by_cases hpt : p0.1 = t
        · rw [if_pos hpt] at hf
          apply hnameTime
          rw [← hqname, ← hf]
        · rw [if_neg hpt] at hf
          rw [← hf] at hqname hqval
          have : p0.2 = Col.num vals := by
            apply mem_keys_nodup_unique df.cols name p0.2 (Col.num vals) hnd
            · rw [← hqname]; exact hp0
            · exact hmem
          rw [this, hnoval] at hqval
          cases hqval
      cases hfc : findCol (df.cols.map
          (fun p => if p.1 = t then ("Time".data, p.2) else p))
          "Time".data with
      | some cx =>
        rw [hfc] at hin
        simp only at hin
        rcases List.mem_map.mp hin with ⟨q, hq, he⟩
        have hq1 := List.mem_filter.mp hq
        have hq2 := List.mem_filter.mp hq1.1
        have hq3 := List.mem_filter.mp hq2.1
        exact hmain q hq3.1 (congrArg Prod.fst he) hq1.2
      | none =>
        rw [hfc] at hin
        simp only at hin
        rcases List.mem_map.mp hin with ⟨q, hq, he⟩
        have hq1 := List.mem_filter.mp hq
        have hq2 := List.mem_filter.mp hq1.1
        exact hmain q hq2.1 (congrArg Prod.fst he) hq1.2

/-- C8 witness: in a frame with a time column, a column
`[1, None, None, 4]` and an all-missing column, preprocessing keeps the
former as `[1, 1, 1, 4]` and drops the latter. -/
theorem preprocess_fill_witness :
    ("v".data, Col.num [some 1, some 1, some 1, some 4]) ∈
      (preprocess_dataframe
        ⟨4, none,
         [("Timestamp".data, Col.num [some 0, some 1, some 2, some 3]),
          ("v".data, Col.num [some 1, none, none, some 4]),
          ("w".data, Col.num [none, none, none, none])]⟩).cols ∧
    ¬ (("w".data, Col.num [none, none, none, none]) ∈
      (preprocess_dataframe
        ⟨4, none,
         [("Timestamp".data, Col.num [some 0, some 1, some 2, some 3]),
          ("v".data, Col.num [some 1, none, none, some 4]),
          ("w".data, Col.num [none, none, none, none])]⟩).cols) := by
  have hv := preprocess_fill
    ⟨4, none,
     [("Timestamp".data, Col.num [some 0, some 1, some 2, some 3]),
      ("v".data, Col.num [some 1, none, none, some 4]),
      ("w".data, Col.num [none, none, none, none])]⟩
    "v".data [some 1, none, none, some 4] (by decide) (by decide)
  have hw := preprocess_fill
    ⟨4, none,
     [("Timestamp".data, Col.num [some 0, some 1, some 2, some 3]),
      ("v".data, Col.num [some 1, none, none, some 4]),
      ("w".data, Col.num [none, none, none, none])]⟩
    "w".data [none, none, none, none] (by decide) (by decide)
  constructor
  · have h1 := hv.1 (by decide)
    rw [hv.2.2] at h1
    exact h1
  · exact hw.2.1 (by decide) (by decide) _

/-! ### `_avg`-suffix lemmas (C7)

`col_base = col_lower.replace('_avg', '')` removes every occurrence of
`_avg`; appending `_avg` to a name therefore leaves `col_base`
unchanged, while `col_lower` merely gains a suffix whose characters
(`_`, `a`, `v`, `g`) can complete none of the keyword substrings the
classifier tests on the unstripped name.
-/

theorem toLowerL_append (s t : List Char) :
    toLowerL (s ++ t) = toLowerL s ++ toLowerL t :=
  List.map_append _ _ _

theorem bool_eq_of_iff {a b : Bool} (h : a = true ↔ b = true) : a = b := by
  cases a <;> cases b <;> simp_all

theorem stripAvg_append_avg (l : List Char) :
    stripAvg (l ++ "_avg".data) = stripAvg l := by
  induction l using stripAvg.induct with
  | case1 rest ih =>
    simp only [List.cons_append]
    rw [stripAvg.eq_1, stripAvg.eq_1]
    exact ih
  | case2 c rest hside ih =>
    have hside' : ∀ (r1 : List Char), c = '_' →
        rest ++ "_avg".data = 'a' :: 'v' :: 'g' :: r1 → False := by
      intro r1 hc he
      match rest, he with
      | [], he =>
        injection he with h1 _
        exact absurd h1 (by decide)
      | [x], he =>
        injection he with _ he2
        injection he2 with h2 _
        exact absurd h2 (by decide)
      | [x, y], he =>
        injection he with _ he2
        injection he2 with _ he3
        injection he3 with h3 _
        exact absurd h3 (by decide)
      | x :: y :: z :: rr, he =>
        injection he with h1 he2
        injection he2 with h2 he3
        injection he3 with h3 _
        exact hside rr hc (by rw [h1, h2, h3])
    simp only [List.cons_append]
    rw [stripAvg.eq_2 c (rest ++ "_avg".data) hside', stripAvg.eq_2 c rest hside]
    rw [ih]
  | case3 =>
    simp only [List.nil_append]
    decide

theorem prefix_append_cases (pat l t : List Char) (h : pat <+: l ++ t) :
    pat <+: l ∨ (l.length < pat.length ∧ pat.drop l.length <+: t) := by
  by_cases hlen : pat.length ≤ l.length
  · left
    rw [List.prefix_iff_eq_take] at h ⊢
    have htake : List.take pat.length (l ++ t) = List.take pat.length l := by
      rw [List.take_append_eq_append_take, Nat.sub_eq_zero_of_le hlen]
      simp
    exact h.trans htake
  · right
    have hlt : l.length < pat.length := Nat.lt_of_not_le hlen
    rw [List.prefix_iff_eq_take] at h
    have h2 : pat = l ++ List.take (pat.length - l.length) t := by
      conv_lhs => rw [h]
      rw [List.take_append_eq_append_take,
        List.take_of_length_le (le_of_lt hlt)]
    have h3 := congrArg (List.drop l.length) h2
    rw [List.drop_left] at h3
    refine ⟨hlt, ?_⟩
    rw [h3]
    exact List.take_prefix _ _

theorem containsSub_append (pat t : List Char)
    (hnc : (List.range pat.length).all
      (fun k => decide (k = 0) || ! ((pat.drop k).isPrefixOf t)) = true)
    (hnt : containsSub pat t = false) (hne : ¬ (pat = [])) :
    ∀ l, containsSub pat (l ++ t) = containsSub pat l := by
  intro l
  induction l with
  | nil =>
    show containsSub pat t = containsSub pat []
    rw [hnt]
    cases pat with
    | nil => exact absurd rfl hne
    | cons c rest => rfl
  | cons c rest ih =>
    show (pat.isPrefixOf (c :: (rest ++ t)) || containsSub pat (rest ++ t)) =
      (pat.isPrefixOf (c :: rest) || containsSub pat rest)
    rw [ih]
    have hpre : pat.isPrefixOf (c :: (rest ++ t)) =
        pat.isPrefixOf (c :: rest) := by
      apply bool_eq_of_iff
      rw [List.isPrefixOf_iff_prefix, List.isPrefixOf_iff_prefix]
      constructor
      · intro h
        rcases prefix_append_cases pat (c :: rest) t h with h1 | ⟨h1, h2⟩
        · exact h1
        · exfalso
          have hk := List.all_eq_true.mp hnc (c :: rest).length
            (List.mem_range.mpr h1)
          rcases Bool.or_eq_true_iff.mp hk with hk1 | hk1
          · exact absurd (of_decide_eq_true hk1) (by simp)
          · rw [Bool.not_eq_true'] at hk1
            rw [← List.isPrefixOf_iff_prefix] at h2
            rw [hk1] at h2
            cases h2
      · intro h
        exact h.trans (List.prefix_append _ _)
    rw [hpre]

theorem append_avg_ne (l L : List Char)
    (h : ¬ ("_avg".data = L.drop (L.length - 4))) :
    ¬ (l ++ "_avg".data = L) := by
  intro he
  apply h
  have hlen := congrArg List.length he
  rw [List.length_append] at hlen
  have hl4 : ("_avg".data).length = 4 := rfl
  rw [hl4] at hlen
  have hll : l.length = L.length - 4 := by omega
  rw [← hll]
  conv_rhs => rw [← he]
  rw [List.drop_left]

theorem classifyCore_append_avg (ls b : List Char)
    (hne : ¬ (ls = "index".data)) :
    classifyCore (ls ++ "_avg".data) b = classifyCore ls b := by
  have hlh := containsSub_append "lh-".data "_avg".data
    (by decide) (by decide) (by decide) ls
  have hrh := containsSub_append "rh-".data "_avg".data
    (by decide) (by decide) (by decide) ls
  have htc := containsSub_append "t".data "_avg".data
    (by decide) (by decide) (by decide) ls
  have htm := containsSub_append "time".data "_avg".data
    (by decide) (by decide) (by decide) ls
  have hcur := containsSub_append "current".data "_avg".data
    (by decide) (by decide) (by decide) ls
  have hamp := containsSub_append "amp".data "_avg".data
    (by decide) (by decide) (by decide) ls
  have hpow := containsSub_append "power".data "_avg".data
    (by decide) (by decide) (by decide) ls
  have hwatt := containsSub_append "watt".data "_avg".data
    (by decide) (by decide) (by decide) ls
  have e1 : ¬ (ls ++ "_avg".data = "time".data) :=
    append_avg_ne ls _ (by decide)
  have e2 : ¬ (ls ++ "_avg".data = "timestamp".data) :=
    append_avg_ne ls _ (by decide)
  have e3 : ¬ (ls ++ "_avg".data = "index".data) :=
    append_avg_ne ls _ (by decide)
  have h7 : (ls = "time".data ∨ ls = "timestamp".data ∨ ls = "index".data ∨
      containsSub "time".data ls = true) ↔
      containsSub "time".data ls = true := by
    constructor
    · rintro (h | h | h | h)
      · subst h; decide
      · subst h; decide
      · exact absurd h hne
      · exact h
    · exact fun h => Or.inr (Or.inr (Or.inr h))
  unfold classifyCore
  simp only [hlh, hrh, htc, htm, hcur, hamp, hpow, hwatt,
    eq_false e1, eq_false e2, eq_false e3, false_or, h7]

/-- C7 counterexample: `index` is classified `time` by the literal-name
rule of the time bucket, but `index_avg` — `index` with the `_avg`
suffix appended — matches no rule at all: the literal test sees the
unstripped lowercased name, so the suffix changes the classification. -/
theorem classify_avg_suffix_counterexample :
    classifyName "index".data = some Cat.time ∧
    classifyName ("index".data ++ "_avg".data) = none := by decide

/-- C7 (amended): the marker rules match on the lowercased name with
every occurrence of `_avg` deleted (so interior occurrences are also
stripped), while the thermocouple, time, current and power keyword
tests use the unstripped lowercased name; appending an `_avg` suffix
(case-insensitively) preserves the classification for every name
except one whose lowercase form is literally `index`. -/
theorem classifyName_avg_suffix (s t : List Char)
    (ht : toLowerL t = "_avg".data)
    (hs : ¬ (toLowerL s = "index".data)) :
    classifyName (s ++ t) = classifyName s := by
  unfold classifyName
  rw [toLowerL_append, ht, stripAvg_append_avg]
  exact classifyCore_append_avg (toLowerL s) _ hs

/-- C7 witness: `Voltage_avg` classifies exactly as `Voltage`. -/
theorem classifyName_avg_suffix_witness :
    classifyName ("Voltage".data ++ "_avg".data) =
      classifyName "Voltage".data :=
  classifyName_avg_suffix "Voltage".data "_avg".data (by decide) (by decide)
